import Mathlib

/-!
Verification model of the marketcap_scraper repository
(src/coin_marketcap_async.py and src/coin_marketcap_sync.py).

The two scripts share a pipeline: scroll a rendered page until its height
stops changing, parse the table rows, build a per-row dict (`coin_info`),
normalize it into a fixed-key dict (`normalized_coin`), and insert each
record into an SQLite table `coins` with INSERT OR REPLACE.

Python dict values in `coin_info` are heterogeneous (the async variant
stores an int rank, every other value is a string, and `img.get('src')`
can store Python None).  We model such values by `Val`.
-/

/-- A Python value as it occurs in the scraper's dicts: None, an int, or a
string. -/
inductive Val where
  | null : Val
  | int  : Int → Val
  | str  : String → Val
deriving DecidableEq

/-- True exactly on integer values; used to state claims about the type of
the stored rank. -/
def Val.isInt : Val → Bool
  | .int _ => true
  | _ => false

/-- `img.get('src')` in Python returns the attribute string or None; this
converts that optional attribute into a dict value. -/
def srcVal : Option String → Val
  | none => Val.null
  | some s => Val.str s

/-- Value of a non-empty decimal digit string, accumulator style; `none`
as soon as a non-digit appears. -/
def digitsValAux : List Char → Nat → Option Nat
  | [], acc => some acc
  | c :: cs, acc =>
    if c.isDigit then digitsValAux cs (acc * 10 + (c.toNat - 48)) else none

/-- Value of a decimal digit string; `none` when empty or not all digits. -/
def digitsVal : List Char → Option Nat
  | [] => none
  | cs => digitsValAux cs 0

/-- Python `int(s)` on a stripped cell text: an optional sign followed by
decimal digits; any other shape raises ValueError (`none` here). -/
def pyToInt (s : String) : Option Int :=
  match s.toList with
  | '-' :: ds => (digitsVal ds).map (fun n => -(n : Int))
  | '+' :: ds => (digitsVal ds).map (fun n => (n : Int))
  | ds => (digitsVal ds).map (fun n => (n : Int))

/-- A Python dict with string keys, modeled as an insertion-ordered
association list (Python 3.7+ dicts preserve insertion order). -/
def RawRow := List (String × Val)
deriving DecidableEq

/-- `d[k] = v`: replace the value in place if `k` is present, else append
the new binding at the end — Python dict assignment. -/
def dictInsert (d : RawRow) (k : String) (v : Val) : RawRow :=
  match d with
  | [] => [(k, v)]
  | (k0, v0) :: rest =>
    if k0 = k then (k, v) :: rest else (k0, v0) :: dictInsert rest k v

/-- `d.get(k)` before applying Python's None default: `none` when the key
is absent. -/
def dictGet (d : RawRow) (k : String) : Option Val :=
  match d with
  | [] => none
  | (k0, v0) :: rest => if k0 = k then some v0 else dictGet rest k

/-- Python `d.get(k)`: the stored value, or None when the key is absent. -/
def pyGet (d : RawRow) (k : String) : Val :=
  (dictGet d k).getD Val.null

/-- The fixed-shape record built by the `normalized_coin` dict literal in
both scripts (coin_marketcap_async.py lines 241-254, coin_marketcap_sync.py
lines 211-224). -/
structure CoinRecord where
  rank : Val
  logo : Val
  name : Val
  symbol : Val
  price : Val
  change_1h : Val
  change_24h : Val
  change_7d : Val
  market_cap : Val
  volume_24h : Val
  circulating_supply : Val
  last_7d : Val
deriving DecidableEq

/-- The Field Normalizer: the `normalized_coin` dict literal, reading each
canonical field from `coin_info` with `.get` (both variants, identical
code). -/
def normalize_coin (d : RawRow) : CoinRecord :=
  { rank := pyGet d "rank"
    logo := pyGet d "logo"
    name := pyGet d "name"
    symbol := pyGet d "symbol"
    price := pyGet d "Price"
    change_1h := pyGet d "1h %"
    change_24h := pyGet d "24h %"
    change_7d := pyGet d "7d %"
    market_cap := pyGet d "Market Cap"
    volume_24h := pyGet d "Volume(24h)"
    circulating_supply := pyGet d "Circulating Supply"
    last_7d := pyGet d "Last 7 Days" }

/-- One positional data cell of a row (`td[style*="end"]`): its stripped
text, and — when the cell contains an `img` tag — that tag together with
its optional `src` attribute. -/
structure Cell where
  text : String
  img : Option (Option String)
deriving DecidableEq

/-- One iteration of the cell-pairing loop at index `idx`
(coin_marketcap_async.py lines 222-236, coin_marketcap_sync.py lines
191-206).  `headers[idx]` raising IndexError is the failure the inner
try/except catches: the step then leaves `coin_info` unchanged.  At the
last index the image source is extracted instead of the cell text; at
other indices the text is stored only when non-empty (`if value:`). -/
def cellStep (hdrs : List String) (lastIdx idx : Nat) (c : Cell) (d : RawRow) : RawRow :=
  match hdrs.get? idx with
  | none => d
  | some h =>
    if idx = lastIdx then
      match c.img with
      | none => d
      | some src => dictInsert d h (srcVal src)
    else
      if c.text = "" then d else dictInsert d h (Val.str c.text)

/-- The cell loop `for idx in range(len(cell_texts))`, running `cellStep`
over the remaining cells, `idx` counting up. -/
def cellLoopAux (hdrs : List String) (lastIdx idx : Nat) :
    List Cell → RawRow → RawRow
  | [], d => d
  | c :: cs, d => cellLoopAux hdrs lastIdx (idx + 1) cs (cellStep hdrs lastIdx idx c d)

/-- The whole cell-pairing loop over a row's data cells: indices start at 0
and the last index is `len(cell_texts) - 1`. -/
def cellLoop (hdrs : List String) (cells : List Cell) (d : RawRow) : RawRow :=
  cellLoopAux hdrs (cells.length - 1) 0 cells d

/-- One parsed `tr` element, reduced to the pieces the scraper reads: the
optional rank cell text (`td[style*="start"]`), the optional logo `img`
with its optional `src`, the optional name and symbol texts, and the
ordered data cells (`td[style*="end"]`). -/
structure Row where
  rankText : Option String
  logoSrc : Option (Option String)
  nameText : Option String
  symbolText : Option String
  cells : List Cell
deriving DecidableEq

/-- The part of the per-row extraction shared by both variants and run
after the rank step: logo, name, symbol (each skipped when the element is
absent), then the cell-pairing loop. -/
def rowInfoRest (hdrs : List String) (r : Row) (d0 : RawRow) : RawRow :=
  let d1 := match r.logoSrc with
    | none => d0
    | some src => dictInsert d0 "logo" (srcVal src)
  let d2 := match r.nameText with
    | none => d1
    | some s => dictInsert d1 "name" (Val.str s)
  let d3 := match r.symbolText with
    | none => d2
    | some s => dictInsert d2 "symbol" (Val.str s)
  cellLoop hdrs r.cells d3

/-- `coin_info` for one row in the sync variant (coin_marketcap_sync.py
lines 162-206): the rank cell text is stored as a string, unconverted. -/
def rowInfoSync (hdrs : List String) (r : Row) : RawRow :=
  rowInfoRest hdrs r
    (match r.rankText with
     | none => []
     | some t => dictInsert [] "rank" (Val.str t))

/-- `coin_info` for one row in the async variant (coin_marketcap_async.py
lines 194-236): the rank text goes through `int(...)`, which raises when
the text does not parse as an integer — and that call sits outside the
per-cell try/except, so the exception escapes the row.  `int(...)` is
modeled by `pyToInt`. -/
def rowInfoAsync (hdrs : List String) (r : Row) : Except Unit RawRow :=
  match r.rankText with
  | none => Except.ok (rowInfoRest hdrs r [])
  | some t =>
    match pyToInt t with
    | none => Except.error ()
    | some i => Except.ok (rowInfoRest hdrs r (dictInsert [] "rank" (Val.int i)))

/-- One row of the sync variant: a coin is collected exactly when
`coin_info` is non-empty (`if coin_info:`). -/
def extractRowSync (hdrs : List String) (r : Row) : Option CoinRecord :=
  if rowInfoSync hdrs r = [] then none else some (normalize_coin (rowInfoSync hdrs r))

/-- The sync row loop: every row with a non-empty `coin_info` contributes
one normalized record, in order. -/
def extractPageSync (hdrs : List String) (rows : List Row) : List CoinRecord :=
  rows.filterMap (extractRowSync hdrs)

/-- One row of the async variant: either the row raises (bad rank text),
yields nothing (empty `coin_info`), or yields one normalized record. -/
def extractRowAsync (hdrs : List String) (r : Row) : Except Unit (Option CoinRecord) :=
  match rowInfoAsync hdrs r with
  | Except.error e => Except.error e
  | Except.ok d => if d = [] then Except.ok none else Except.ok (some (normalize_coin d))

/-- The async row loop inside the page-level try/except
(coin_marketcap_async.py lines 187-259): rows are yielded one by one; an
exception escaping a row is caught by the outer handler, which logs it and
ends the generator — the remaining rows of the page are never processed,
while the rows already yielded stand. -/
def extractPageAsync (hdrs : List String) : List Row → List CoinRecord
  | [] => []
  | r :: rs =>
    match extractRowAsync hdrs r with
    | Except.error _ => []
    | Except.ok none => extractPageAsync hdrs rs
    | Except.ok (some rec) => rec :: extractPageAsync hdrs rs

/-! ### Scroll Convergence Detector

The scroll loop (coin_marketcap_async.py lines 159-176,
coin_marketcap_sync.py lines 123-139): each iteration reads the old page
height, scrolls, waits, reads the new height, then increments the stall
counter when the two heights are equal and resets it to zero otherwise;
the loop runs while the counter is below `max_count`.  An execution is
modeled by the sequence of (old, new) height observations, one pair per
iteration. -/

/-- One counter update of the scroll loop: `count + 1` when the height did
not change, `0` otherwise. -/
def scrollCountStep (count oldH newH : Nat) : Nat :=
  if oldH = newH then count + 1 else 0

/-- The counter value after `n` iterations, given the per-iteration
(old, new) height observations. -/
def scrollCount (obs : Nat → Nat × Nat) : Nat → Nat
  | 0 => 0
  | n + 1 => scrollCountStep (scrollCount obs n) (obs n).1 (obs n).2

/-- Observations of a single height sequence `h`, iteration `n` comparing
`h n` with `h (n + 1)`: the back-to-back reads between iterations agree. -/
def heightObs (h : Nat → Nat) : Nat → Nat × Nat :=
  fun n => (h n, h (n + 1))

/-- The `while count < max_count` loop terminates iff the counter ever
reaches `maxCount`. -/
def scrollTerminates (maxCount : Nat) (obs : Nat → Nat × Nat) : Prop :=
  ∃ n, maxCount ≤ scrollCount obs n

/-- The loop performs exactly `n` iterations: the counter reaches
`maxCount` after `n` iterations and not before. -/
def scrollStopsAt (maxCount : Nat) (obs : Nat → Nat × Nat) (n : Nat) : Prop :=
  maxCount ≤ scrollCount obs n ∧ ∀ m < n, scrollCount obs m < maxCount

/-- `max_count` of the async variant (coin_marketcap_async.py line 159). -/
def maxCountAsync : Nat := 20

/-- `max_count` of the sync variant (coin_marketcap_sync.py line 123). -/
def maxCountSync : Nat := 10

/-! ### Record Sink

`create_db` declares the `coins` table with twelve plain columns and no
PRIMARY KEY and no UNIQUE constraint, in both variants
(coin_marketcap_async.py lines 39-54: `rank INTEGER`;
coin_marketcap_sync.py lines 32-47: `rank TEXT`).  Under SQLite semantics,
`INSERT OR REPLACE` replaces only rows that would violate a uniqueness
constraint; with no such constraint declared, no conflict can arise and
the statement always appends a fresh row.  The table state is therefore a
list of rows in insertion order. -/

/-- The stored `coins` table. -/
abbrev DbState := List CoinRecord

/-- `insert_coin`: the INSERT OR REPLACE statement followed by a commit.
Given the constraint-free schema of `create_db` it appends one row. -/
def insert_coin (db : DbState) (coin : CoinRecord) : DbState :=
  db ++ [coin]

/-- The rows of the table whose rank column holds `v`. -/
def rowsWithRank (db : DbState) (v : Val) : List CoinRecord :=
  db.filter (fun c => c.rank == v)

/-- Navigation/timeout failure of `page.goto` (raised before any record of
the page is produced, and caught nowhere in either script). -/
inductive NavError where
  | timeout : NavError
deriving DecidableEq

/-- The sync orchestration (coin_marketcap_sync.py lines 232-277): `main`
calls `process_page` per URL with no exception handler, and `process_page`
inserts every scraped coin of a page, also with no handler (its
try/finally only closes the connection).  A page therefore either yields
its record list — each record inserted and committed — or raises, which
aborts the whole run; the table keeps what was committed before. -/
def runPagesSync (db : DbState) :
    List (Except NavError (List CoinRecord)) → DbState × Option NavError
  | [] => (db, none)
  | Except.error e :: _ => (db, some e)
  | Except.ok coins :: rest => runPagesSync (coins.foldl insert_coin db) rest

/-- The per-page insertion loop with a possibly failing storage layer:
each record is inserted and committed individually, and a failing insert
raises, ending the loop; `true` means every record was inserted. -/
def insertAll (fails : CoinRecord → Bool) (db : DbState) :
    List CoinRecord → DbState × Bool
  | [] => (db, true)
  | c :: cs => if fails c then (db, false) else insertAll fails (insert_coin db c) cs

/-! ### Shared lemmas about the dict model -/

theorem dictGet_dictInsert_self (d : RawRow) (k : String) (v : Val) :
    dictGet (dictInsert d k v) k = some v := by
  induction d with
  | nil => simp [dictInsert, dictGet]
  | cons p rest ih =>
    obtain ⟨k0, v0⟩ := p
    by_cases h : k0 = k <;> simp [dictInsert, dictGet, h, ih]

theorem dictGet_dictInsert_ne (d : RawRow) (k1 k2 : String) (v : Val) (h : k1 ≠ k2) :
    dictGet (dictInsert d k1 v) k2 = dictGet d k2 := by
  induction d with
  | nil => simp [dictInsert, dictGet, h]
  | cons p rest ih =>
    obtain ⟨k0, v0⟩ := p
    by_cases h0 : k0 = k1 <;> simp [dictInsert, dictGet, h0, h, ih]

/-! ### Concrete inputs used by the claims -/

/-- The spec's Row Extractor example: cell texts `$1.23`, `+0.5%`, and an
empty-text last cell holding a sparkline image `chart.png`. -/
def c6Cells : List Cell :=
  [{ text := "$1.23", img := none }, { text := "+0.5%", img := none },
   { text := "", img := some (some "chart.png") }]

/-- A row whose rank cell text is the integer literal `2` and which has
nothing else. -/
def goodRankRow : Row :=
  { rankText := some "2", logoSrc := none, nameText := none, symbolText := none,
    cells := [] }

/-- A row whose rank cell text does not parse as an integer. -/
def badRankRow : Row :=
  { rankText := some "N/A", logoSrc := none, nameText := none, symbolText := none,
    cells := [] }

/-- A row whose final data cell carries an image with an empty `src`. -/
def c9Row : Row :=
  { rankText := none, logoSrc := none, nameText := none, symbolText := none,
    cells := [{ text := "$1.23", img := none }, { text := "+0.5%", img := none },
              { text := "", img := some (some "") }] }

/-- The spec's height sequence [100, 150, 150, 150, 150], constant
afterwards. -/
def exHeights : Nat → Nat := fun n => [100, 150, 150, 150, 150].getD n 150

/-- A page whose height alternates forever between 100 and 101: it never
repeats between consecutive checks, so it never stabilizes. -/
def altHeights : Nat → Nat := fun n => if n % 2 = 0 then 100 else 101

/-- A record with rank 1 and price `$1.00`, all other fields null. -/
def coinR1P1 : CoinRecord :=
  { rank := Val.int 1, logo := Val.null, name := Val.null, symbol := Val.null,
    price := Val.str "$1.00", change_1h := Val.null, change_24h := Val.null,
    change_7d := Val.null, market_cap := Val.null, volume_24h := Val.null,
    circulating_supply := Val.null, last_7d := Val.null }

/-- The same rank 1 with a different price `$2.00`. -/
def coinR1P2 : CoinRecord := { coinR1P1 with price := Val.str "$2.00" }

/-- A record with rank 9, used as the failing insert in the C10 witness. -/
def coinR9 : CoinRecord := { coinR1P1 with rank := Val.int 9 }

/-- A storage layer that fails exactly on records with rank 9. -/
def failsRank9 : CoinRecord → Bool := fun c => c.rank == Val.int 9

/-! ### C1 -/

/-- C1: evaluated at the claim's failing input.  Upserting two records
with rank 1 does NOT leave exactly one row for that rank: the `coins`
table of `create_db` has no uniqueness constraint, so `INSERT OR REPLACE`
appends, and both rows — including the first record's superseded price —
remain stored. -/
theorem insert_coin_duplicate_rank_rows :
    rowsWithRank (insert_coin (insert_coin [] coinR1P1) coinR1P2) (Val.int 1) =
      [coinR1P1, coinR1P2] ∧
    (rowsWithRank (insert_coin (insert_coin [] coinR1P1) coinR1P2) (Val.int 1)).length = 2 ∧
    coinR1P1 ≠ coinR1P2 := by
  decide

/-! ### C2 -/

/-- C2, counterexample: the claim says the no-growth counter is
"incremented otherwise" (whenever the height did not increase), but on a
height decrease from 150 to 100 the code resets the counter to 0 instead
of incrementing it to 1. -/
theorem scroll_counter_not_incremented_on_decrease :
    ¬ (scrollCountStep 0 150 100 = 0 + 1) := by
  decide

/-- C2 (amended): the scroll loop's counter is reset to zero whenever the
height CHANGED between the two checks of an iteration (increase or
decrease) and incremented when it stayed equal; the loop terminates
exactly when the counter first reaches the configured threshold; and on
the height sequence [100, 150, 150, 150, 150] with threshold 3 it stops
after the third consecutive repeat, i.e. after 4 iterations. -/
theorem scroll_counter_spec :
    (∀ c oldH newH, oldH ≠ newH → scrollCountStep c oldH newH = 0) ∧
    (∀ c oldH newH, oldH = newH → scrollCountStep c oldH newH = c + 1) ∧
    (∀ maxCount obs, scrollTerminates maxCount obs ↔ ∃ n, scrollStopsAt maxCount obs n) ∧
    scrollStopsAt 3 (heightObs exHeights) 4 := by
  refine ⟨?_, ?_, ?_, ?_⟩
  · intro c oldH newH h
    simp [scrollCountStep, h]
  · intro c oldH newH h
    simp [scrollCountStep, h]
  · intro maxCount obs
    constructor
    · intro hex
      refine ⟨Nat.find hex, Nat.find_spec hex, fun m hm => ?_⟩
      have := Nat.find_min hex hm
      omega
    · rintro ⟨n, h1, h2⟩
      exact ⟨n, h1⟩
  · exact ⟨by decide, by decide⟩

/-- C2, witness for the hypotheses of `scroll_counter_spec`: at concrete
heights, a change resets the counter and equality increments it. -/
theorem scroll_counter_spec_witness :
    scrollCountStep 0 150 100 = 0 ∧ scrollCountStep 5 150 150 = 6 :=
  ⟨scroll_counter_spec.1 0 150 100 (by decide), scroll_counter_spec.2.1 5 150 150 rfl⟩

/-! ### C7 -/

/-- On the alternating height sequence, the stall counter never leaves 0. -/
theorem scrollCount_altHeights (n : Nat) : scrollCount (heightObs altHeights) n = 0 := by
  induction n with
  | zero => rfl
  | succ n ih =>
    have h : altHeights n ≠ altHeights (n + 1) := by
      by_cases hn : n % 2 = 0
      · have h1 : (n + 1) % 2 = 1 := by omega
        simp [altHeights, hn, h1]
      · have h1 : (n + 1) % 2 = 0 := by omega
        simp [altHeights, hn, h1]
    simp [scrollCount, heightObs, scrollCountStep, ih, h]

/-- C7: the scroll loop has no iteration ceiling — on a page whose height
alternates forever (so no two consecutive checks agree, hence never
`scroll_stall_threshold` consecutive no-growth observations), the loop of
either variant (max_count 20 and 10) never terminates. -/
theorem scroll_loop_unbounded :
    (∀ n, (heightObs altHeights n).1 ≠ (heightObs altHeights n).2) ∧
    ¬ scrollTerminates maxCountAsync (heightObs altHeights) ∧
    ¬ scrollTerminates maxCountSync (heightObs altHeights) := by
  refine ⟨?_, ?_, ?_⟩
  · intro n
    show altHeights n ≠ altHeights (n + 1)
    by_cases hn : n % 2 = 0
    · have h1 : (n + 1) % 2 = 1 := by omega
      simp [altHeights, hn, h1]
    · have h1 : (n + 1) % 2 = 0 := by omega
      simp [altHeights, hn, h1]
  · rintro ⟨n, hn⟩
    rw [scrollCount_altHeights] at hn
    simp [maxCountAsync] at hn
  · rintro ⟨n, hn⟩
    rw [scrollCount_altHeights] at hn
    simp [maxCountSync] at hn

/-! ### C5 -/

/-- C5: the Field Normalizer maps every canonical field whose expected
label is absent from `coin_info` to null; it is a total function of the
dict (defined for every `RawRow`, absence represented, never thrown). -/
theorem normalizer_missing_label_null (d : RawRow) :
    (dictGet d "rank" = none → (normalize_coin d).rank = Val.null) ∧
    (dictGet d "logo" = none → (normalize_coin d).logo = Val.null) ∧
    (dictGet d "name" = none → (normalize_coin d).name = Val.null) ∧
    (dictGet d "symbol" = none → (normalize_coin d).symbol = Val.null) ∧
    (dictGet d "Price" = none → (normalize_coin d).price = Val.null) ∧
    (dictGet d "1h %" = none → (normalize_coin d).change_1h = Val.null) ∧
    (dictGet d "24h %" = none → (normalize_coin d).change_24h = Val.null) ∧
    (dictGet d "7d %" = none → (normalize_coin d).change_7d = Val.null) ∧
    (dictGet d "Market Cap" = none → (normalize_coin d).market_cap = Val.null) ∧
    (dictGet d "Volume(24h)" = none → (normalize_coin d).volume_24h = Val.null) ∧
    (dictGet d "Circulating Supply" = none → (normalize_coin d).circulating_supply = Val.null) ∧
    (dictGet d "Last 7 Days" = none → (normalize_coin d).last_7d = Val.null) := by
  refine ⟨?_, ?_, ?_, ?_, ?_, ?_, ?_, ?_, ?_, ?_, ?_, ?_⟩ <;>
    (intro h; simp [normalize_coin, pyGet, h])

/-- C5, witness: on the empty dict every label is absent and the rank and
price fields come out null. -/
theorem normalizer_missing_label_null_witness :
    (normalize_coin []).rank = Val.null ∧ (normalize_coin []).price = Val.null :=
  ⟨(normalizer_missing_label_null []).1 rfl,
   (normalizer_missing_label_null []).2.2.2.2.1 rfl⟩

/-! ### C4 -/

/-- Each page's insert loop appends its records in order. -/
theorem foldl_insert_coin (cs : List CoinRecord) :
    ∀ db : DbState, cs.foldl insert_coin db = db ++ cs := by
  induction cs with
  | nil => intro db; simp
  | cons c cs ih =>
    intro db
    simp [List.foldl, insert_coin, ih, List.append_assoc]

/-- C4, counterexample: with a 2-page batch whose first page fails to
navigate and whose second page would yield `coinR1P1`, orchestration ends
with an empty table — the navigation failure is NOT confined to its own
page, and the other page's record is never stored. -/
theorem nav_failure_drops_later_page_records :
    (runPagesSync [] [Except.error NavError.timeout, Except.ok [coinR1P1]]).1 = [] ∧
    coinR1P1 ∉ (runPagesSync [] [Except.error NavError.timeout, Except.ok [coinR1P1]]).1 := by
  decide

/-- C4 (amended): a navigation/timeout failure on one page's task ends
that task without inserting records for that page AND aborts the whole
orchestration: every record of every page before the failing one is
stored, while the failing page and all pages after it contribute
nothing. -/
theorem nav_failure_aborts_orchestration (goods : List (List CoinRecord)) (e : NavError)
    (rest : List (Except NavError (List CoinRecord))) (db : DbState) :
    runPagesSync db (goods.map Except.ok ++ Except.error e :: rest) =
      (db ++ goods.foldl (fun acc coins => acc ++ coins) [], some e) := by
  induction goods generalizing db with
  | nil => simp [runPagesSync]
  | cons g gs ih =>
    show runPagesSync (g.foldl insert_coin db) (gs.map Except.ok ++ Except.error e :: rest) = _
    rw [ih, foldl_insert_coin]
    have hshift : ∀ (l : List (List CoinRecord)) (a : List CoinRecord),
        l.foldl (fun acc coins => acc ++ coins) a =
          a ++ l.foldl (fun acc coins => acc ++ coins) [] := by
      intro l
      induction l with
      | nil => intro a; simp
      | cons x xs ihx =>
        intro a
        simp only [List.foldl, List.nil_append]
        rw [ihx (a ++ x), ihx x, List.append_assoc]
    have h1 : (g :: gs).foldl (fun acc coins => acc ++ coins) [] =
        g ++ gs.foldl (fun acc coins => acc ++ coins) [] := by
      simp only [List.foldl, List.nil_append]
      exact hshift gs g
    rw [h1, ← List.append_assoc]

/-! ### C10 -/

/-- C10: persistence is incremental with one committed upsert per record
and no page-level transaction — when the storage layer fails on a record
after `good` records of the page were upserted, exactly those records
remain stored (nothing is rolled back), and the remaining records of the
page are never inserted. -/
theorem per_record_commit_keeps_prior_records
    (fails : CoinRecord → Bool) (db : DbState) (good : List CoinRecord)
    (bad : CoinRecord) (rest : List CoinRecord)
    (hgood : ∀ c ∈ good, fails c = false) (hbad : fails bad = true) :
    insertAll fails db (good ++ bad :: rest) = (db ++ good, false) := by
  induction good generalizing db with
  | nil => simp [insertAll, hbad]
  | cons c cs ih =>
    have hc : fails c = false := hgood c (by simp)
    have hcs : ∀ x ∈ cs, fails x = false := fun x hx => hgood x (by simp [hx])
    show insertAll fails db (c :: (cs ++ bad :: rest)) = _
    rw [insertAll, if_neg (by simp [hc])]
    rw [ih (insert_coin db c) hcs]
    simp [insert_coin, List.append_assoc]

/-- C10, witness: one good record is committed, the rank 9 record fails,
and the trailing record is never inserted; the good record remains. -/
theorem per_record_commit_witness :
    insertAll failsRank9 [] ([coinR1P1] ++ coinR9 :: [coinR1P2]) = ([] ++ [coinR1P1], false) :=
  per_record_commit_keeps_prior_records failsRank9 [] [coinR1P1] coinR9 [coinR1P2]
    (by decide) (by decide)

/-! ### C3 -/

/-- C3, counterexample: a single bad cell CAN abort a whole page in the
async variant.  A lone row whose rank text is `2` yields its record, but
putting a row with unparseable rank text `N/A` before it makes the page
yield nothing: `int(...)` raises outside the per-cell try/except, the
page-level handler ends the generator, and the later row is lost. -/
theorem async_bad_rank_aborts_page :
    extractPageAsync [] [goodRankRow] = [normalize_coin [("rank", Val.int 2)]] ∧
    extractPageAsync [] [badRankRow, goodRankRow] = [] := by
  decide

/-- C3 (amended): a failure in the per-cell pairing step (the header
lookup raising for that index) is caught, that field is omitted and
the loop continues with the remaining cells; but in the async variant a
rank cell whose text does not parse as an integer escapes the per-row
code, and extraction of that row and of all remaining rows of the page is
aborted — only the rows already extracted before it survive. -/
theorem cell_failure_isolated_rank_failure_aborts :
    (∀ (hdrs : List String) (lastIdx idx : Nat) (c : Cell) (cs : List Cell) (d : RawRow),
        hdrs.get? idx = none →
        cellLoopAux hdrs lastIdx idx (c :: cs) d = cellLoopAux hdrs lastIdx (idx + 1) cs d) ∧
    (∀ (hdrs : List String) (pre : List Row) (r : Row) (rest : List Row),
        rowInfoAsync hdrs r = Except.error () →
        (∀ r0 ∈ pre, rowInfoAsync hdrs r0 ≠ Except.error ()) →
        extractPageAsync hdrs (pre ++ r :: rest) = extractPageAsync hdrs pre) := by
  constructor
  · intro hdrs lastIdx idx c cs d h
    rw [List.get?_eq_getElem?] at h
    simp [cellLoopAux, cellStep, h]
  · intro hdrs pre r rest herr
    induction pre with
    | nil =>
      intro _
      simp [extractPageAsync, extractRowAsync, herr]
    | cons r0 pre ih =>
      intro hpre
      have h0 : rowInfoAsync hdrs r0 ≠ Except.error () := hpre r0 (by simp)
      have hrec : ∀ r1 ∈ pre, rowInfoAsync hdrs r1 ≠ Except.error () :=
        fun r1 h1 => hpre r1 (by simp [h1])
      cases hcase : rowInfoAsync hdrs r0 with
      | error e => exact absurd hcase (by cases e; exact h0)
      | ok d =>
        by_cases hd : d = []
        · simp [extractPageAsync, extractRowAsync, hcase, hd, ih hrec]
        · simp [extractPageAsync, extractRowAsync, hcase, hd, ih hrec]

/-- C3, witness: an out-of-range header index skips that cell and the
loop goes on, and at concrete rows the async page loop drops everything
after the bad-rank row while keeping what came before (here: nothing). -/
theorem cell_failure_isolated_witness :
    cellLoopAux ["Price"] 2 1 [{ text := "x", img := none }] [] =
      cellLoopAux ["Price"] 2 2 [] [] ∧
    extractPageAsync [] ([] ++ badRankRow :: [goodRankRow]) = extractPageAsync [] [] :=
  ⟨cell_failure_isolated_rank_failure_aborts.1 ["Price"] 2 1 { text := "x", img := none } [] []
      rfl,
   cell_failure_isolated_rank_failure_aborts.2 [] [] badRankRow [goodRankRow] rfl
      (fun r0 h => absurd h (List.not_mem_nil r0))⟩

/-! ### C6 -/

/-- Splitting the cell loop at the final cell: running the loop on
`cs ++ [c]` is running it on `cs` and then one `cellStep` at index
`i + cs.length`. -/
theorem cellLoopAux_append (hdrs : List String) (lastIdx : Nat) (c : Cell) :
    ∀ (cs : List Cell) (i : Nat) (d : RawRow),
      cellLoopAux hdrs lastIdx i (cs ++ [c]) d =
        cellStep hdrs lastIdx (i + cs.length) c (cellLoopAux hdrs lastIdx i cs d) := by
  intro cs
  induction cs with
  | nil =>
    intro i d
    simp [cellLoopAux]
  | cons c0 cs ih =>
    intro i d
    show cellLoopAux hdrs lastIdx (i + 1) (cs ++ [c]) (cellStep hdrs lastIdx i c0 d) = _
    rw [ih (i + 1)]
    have harith : i + 1 + cs.length = i + (c0 :: cs).length := by
      simp [List.length_cons]
      omega
    rw [harith]
    rfl

/-- C6: the Row Extractor pairs data cells positionally with the header
labels, and for the final positional cell it always stores the embedded
image source instead of the cell text, whatever that text is.  On the
spec's example — labels [Price, 1h %, 7d %], texts [$1.23, +0.5%, ""] and
final-cell image src chart.png — the resulting RawRow is exactly
{Price: $1.23, 1h %: +0.5%, 7d %: chart.png}; and in general, whenever
the final cell carries an image with src `s` and a header label `h` sits
at the final index, the produced row maps `h` to `s`. -/
theorem row_extractor_pairing_last_cell_image :
    cellLoop ["Price", "1h %", "7d %"] c6Cells [] =
      [("Price", Val.str "$1.23"), ("1h %", Val.str "+0.5%"), ("7d %", Val.str "chart.png")] ∧
    (∀ (hdrs : List String) (cs : List Cell) (c : Cell) (s : String) (h : String) (d : RawRow),
        hdrs.get? cs.length = some h → c.img = some (some s) →
        dictGet (cellLoop hdrs (cs ++ [c]) d) h = some (Val.str s)) := by
  constructor
  · decide
  · intro hdrs cs c s h d hh hc
    unfold cellLoop
    have hl : (cs ++ [c]).length - 1 = cs.length := by simp
    rw [hl, cellLoopAux_append]
    rw [List.get?_eq_getElem?] at hh
    simp [cellStep, hh, hc, srcVal, dictGet_dictInsert_self]

/-- C6, witness: a single-cell row (its only cell is also its last) with a
non-empty text still stores the image source, not the text. -/
theorem row_extractor_last_cell_witness :
    dictGet (cellLoop ["Price"] [{ text := "x", img := some (some "p.png") }] []) "Price" =
      some (Val.str "p.png") :=
  row_extractor_pairing_last_cell_image.2 ["Price"] []
    { text := "x", img := some (some "p.png") } "p.png" "Price" [] rfl rfl

/-! ### C8 -/

/-- The cell-pairing loop only ever writes keys that occur among the
header labels, so every other key of `coin_info` is untouched by it. -/
theorem dictGet_cellLoopAux_not_mem (hdrs : List String) (L : String) (hL : L ∉ hdrs)
    (lastIdx : Nat) :
    ∀ (cells : List Cell) (i : Nat) (d : RawRow),
      dictGet (cellLoopAux hdrs lastIdx i cells d) L = dictGet d L := by
  intro cells
  induction cells with
  | nil =>
    intro i d
    rfl
  | cons c cs ih =>
    intro i d
    show dictGet (cellLoopAux hdrs lastIdx (i + 1) cs (cellStep hdrs lastIdx i c d)) L =
      dictGet d L
    rw [ih (i + 1)]
    unfold cellStep
    split
    · rfl
    · rename_i h hg
      have hne : h ≠ L := fun he => hL (he ▸ List.get?_mem hg)
      split
      · split
        · rfl
        · exact dictGet_dictInsert_ne d h L _ hne
      · split
        · rfl
        · exact dictGet_dictInsert_ne d h L _ hne

/-- The shared logo/name/symbol/cells part of row extraction never touches
the `rank` key, provided no header label is literally `rank`. -/
theorem dictGet_rowInfoRest_rank (hdrs : List String) (hL : "rank" ∉ hdrs) (r : Row)
    (d0 : RawRow) :
    dictGet (rowInfoRest hdrs r d0) "rank" = dictGet d0 "rank" := by
  obtain ⟨rk, lo, na, sy, cl⟩ := r
  unfold rowInfoRest cellLoop
  rw [dictGet_cellLoopAux_not_mem hdrs "rank" hL]
  cases lo <;> cases na <;> cases sy <;>
    simp [dictGet_dictInsert_ne]

/-- Reduction of the sync `coin_info` when the rank cell is present. -/
theorem rowInfoSync_rank_some (hdrs : List String) (r : Row) (t : String)
    (hrk : r.rankText = some t) :
    rowInfoSync hdrs r = rowInfoRest hdrs r (dictInsert [] "rank" (Val.str t)) := by
  unfold rowInfoSync
  rw [hrk]

/-- Reduction of the async `coin_info` when the rank text fails `int`. -/
theorem rowInfoAsync_badRank (hdrs : List String) (r : Row) (t : String)
    (hrk : r.rankText = some t) (hpi : pyToInt t = none) :
    rowInfoAsync hdrs r = Except.error () := by
  unfold rowInfoAsync
  rw [hrk]
  show (match pyToInt t with
    | none => Except.error ()
    | some i => Except.ok (rowInfoRest hdrs r (dictInsert [] "rank" (Val.int i)))) =
    Except.error ()
  rw [hpi]

/-- Reduction of the async `coin_info` when the rank text parses. -/
theorem rowInfoAsync_goodRank (hdrs : List String) (r : Row) (t : String) (i : Int)
    (hrk : r.rankText = some t) (hpi : pyToInt t = some i) :
    rowInfoAsync hdrs r = Except.ok (rowInfoRest hdrs r (dictInsert [] "rank" (Val.int i))) := by
  unfold rowInfoAsync
  rw [hrk]
  show (match pyToInt t with
    | none => Except.error ()
    | some i => Except.ok (rowInfoRest hdrs r (dictInsert [] "rank" (Val.int i)))) =
    Except.ok (rowInfoRest hdrs r (dictInsert [] "rank" (Val.int i)))
  rw [hpi]

/-- Reduction of the async per-row extraction when `coin_info` was built. -/
theorem extractRowAsync_of_ok (hdrs : List String) (r : Row) (d : RawRow)
    (h : rowInfoAsync hdrs r = Except.ok d) :
    extractRowAsync hdrs r =
      if d = [] then Except.ok none else Except.ok (some (normalize_coin d)) := by
  unfold extractRowAsync
  rw [h]

/-- C8, counterexample: in the sequential variant the rank is NOT an
integer — a row whose rank cell text is `2` produces a record whose rank
field is the string `2` (matching the `rank TEXT` column of the sync
`create_db`). -/
theorem sync_rank_is_string :
    (extractPageSync [] [goodRankRow]).map (fun rec => rec.rank) = [Val.str "2"] ∧
    Val.isInt (Val.str "2") = false := by
  decide

/-- C8 (amended): for every extracted row in which a rank cell is present
(and no header label collides with the key `rank`), the concurrent (async)
variant stores the rank as an integer, while the sequential variant stores
it as the raw cell string. -/
theorem rank_is_int_async_string_sync :
    (∀ (hdrs : List String) (r : Row) (rec : CoinRecord),
        "rank" ∉ hdrs → r.rankText ≠ none →
        extractRowAsync hdrs r = Except.ok (some rec) → Val.isInt rec.rank = true) ∧
    (∀ (hdrs : List String) (r : Row) (rec : CoinRecord) (t : String),
        "rank" ∉ hdrs → r.rankText = some t →
        extractRowSync hdrs r = some rec → rec.rank = Val.str t) := by
  constructor
  · intro hdrs r rec hm hr hex
    cases hrk : r.rankText with
    | none => exact absurd hrk hr
    | some t =>
      cases hpi : pyToInt t with
      | none =>
        have hra := rowInfoAsync_badRank hdrs r t hrk hpi
        unfold extractRowAsync at hex
        rw [hra] at hex
        exact absurd hex (by simp)
      | some i =>
        have hra := rowInfoAsync_goodRank hdrs r t i hrk hpi
        rw [extractRowAsync_of_ok hdrs r _ hra] at hex
        by_cases hde : rowInfoRest hdrs r (dictInsert [] "rank" (Val.int i)) = []
        · rw [if_pos hde] at hex
          exact absurd hex (by simp)
        · rw [if_neg hde] at hex
          simp only [Except.ok.injEq, Option.some.injEq] at hex
          rw [← hex]
          show Val.isInt (normalize_coin _).rank = true
          simp [normalize_coin, pyGet, dictGet_rowInfoRest_rank hdrs hm,
            dictGet_dictInsert_self, Val.isInt]
  · intro hdrs r rec t hm hrk hex
    have hrs := rowInfoSync_rank_some hdrs r t hrk
    unfold extractRowSync at hex
    rw [hrs] at hex
    by_cases hde : rowInfoRest hdrs r (dictInsert [] "rank" (Val.str t)) = []
    · rw [if_pos hde] at hex
      exact absurd hex (by simp)
    · rw [if_neg hde] at hex
      simp only [Option.some.injEq] at hex
      rw [← hex]
      show (normalize_coin _).rank = Val.str t
      simp [normalize_coin, pyGet, dictGet_rowInfoRest_rank hdrs hm,
        dictGet_dictInsert_self]

/-- C8, witness: the async variant run on a concrete row with rank text
`2` produces an integer rank. -/
theorem rank_is_int_async_witness :
    Val.isInt (normalize_coin [("rank", Val.int 2)]).rank = true :=
  rank_is_int_async_string_sync.1 [] goodRankRow (normalize_coin [("rank", Val.int 2)])
    (by simp) (by simp [goodRankRow]) rfl

/-! ### C9 -/

/-- Holds of a dict value that is either Python None or a non-empty
string. -/
def nonEmptyOrNull : Val → Bool
  | Val.null => true
  | Val.int _ => false
  | Val.str s => if s = "" then false else true

theorem pyGet_dictInsert_ne (d : RawRow) (k1 k2 : String) (v : Val) (h : k1 ≠ k2) :
    pyGet (dictInsert d k1 v) k2 = pyGet d k2 := by
  unfold pyGet
  rw [dictGet_dictInsert_ne d k1 k2 v h]

/-- The cell loop preserves being-null-or-non-empty for every label that
is not the one paired with the last index: non-last cells only ever store
non-empty texts (`if value:`), and the last-index image write goes to a
different label. -/
theorem cellLoopAux_nonEmpty_preserve (hdrs : List String) (L : String) (lastIdx : Nat)
    (hlast : hdrs.get? lastIdx ≠ some L) :
    ∀ (cells : List Cell) (i : Nat) (d : RawRow),
      nonEmptyOrNull (pyGet d L) = true →
      nonEmptyOrNull (pyGet (cellLoopAux hdrs lastIdx i cells d) L) = true := by
  intro cells
  induction cells with
  | nil =>
    intro i d h
    exact h
  | cons c cs ih =>
    intro i d h
    show nonEmptyOrNull
      (pyGet (cellLoopAux hdrs lastIdx (i + 1) cs (cellStep hdrs lastIdx i c d)) L) = true
    apply ih (i + 1)
    unfold cellStep
    split
    · exact h
    · rename_i hh hg
      split
      · rename_i hidx
        have hne : hh ≠ L := by
          intro he
          rw [hidx, he] at hg
          exact hlast hg
        split
        · exact h
        · rw [pyGet_dictInsert_ne d hh L _ hne]
          exact h
      · split
        · exact h
        · rename_i ht
          by_cases hL2 : hh = L
          · subst hL2
            unfold pyGet
            rw [dictGet_dictInsert_self]
            show nonEmptyOrNull (Val.str c.text) = true
            simp [nonEmptyOrNull, ht]
          · rw [pyGet_dictInsert_ne d hh L _ hL2]
            exact h

/-- Being-null-or-non-empty carries over the whole shared row extraction
for labels distinct from `logo`, `name`, `symbol` and from the label at
the final cell index. -/
theorem rowInfoRest_nonEmpty (hdrs : List String) (r : Row) (d0 : RawRow) (L : String)
    (hlo : L ≠ "logo") (hna : L ≠ "name") (hsy : L ≠ "symbol")
    (hlast : hdrs.get? (r.cells.length - 1) ≠ some L)
    (h0 : nonEmptyOrNull (pyGet d0 L) = true) :
    nonEmptyOrNull (pyGet (rowInfoRest hdrs r d0) L) = true := by
  obtain ⟨rk, lo, na, sy, cl⟩ := r
  unfold rowInfoRest cellLoop
  apply cellLoopAux_nonEmpty_preserve hdrs L (cl.length - 1) hlast
  cases lo <;> cases na <;> cases sy <;>
    simp only [pyGet_dictInsert_ne _ "logo" L _ (Ne.symm hlo),
      pyGet_dictInsert_ne _ "name" L _ (Ne.symm hna),
      pyGet_dictInsert_ne _ "symbol" L _ (Ne.symm hsy)] <;>
    exact h0

/-- The seven canonical fields kept as display strings, with the column
label each one is read from by the Field Normalizer. -/
def strFieldLabels : List String :=
  ["Price", "1h %", "24h %", "7d %", "Market Cap", "Volume(24h)", "Circulating Supply"]

/-- The record field the Field Normalizer fills from a given label. -/
def strFieldOf (rec : CoinRecord) (L : String) : Val :=
  if L = "Price" then rec.price
  else if L = "1h %" then rec.change_1h
  else if L = "24h %" then rec.change_24h
  else if L = "7d %" then rec.change_7d
  else if L = "Market Cap" then rec.market_cap
  else if L = "Volume(24h)" then rec.volume_24h
  else if L = "Circulating Supply" then rec.circulating_supply
  else Val.null

theorem strFieldLabels_cases (L : String) (hL : L ∈ strFieldLabels) :
    L = "Price" ∨ L = "1h %" ∨ L = "24h %" ∨ L = "7d %" ∨ L = "Market Cap" ∨
      L = "Volume(24h)" ∨ L = "Circulating Supply" := by
  simpa [strFieldLabels] using hL

theorem strFieldOf_normalize (d : RawRow) (L : String) (hL : L ∈ strFieldLabels) :
    strFieldOf (normalize_coin d) L = pyGet d L := by
  rcases strFieldLabels_cases L hL with rfl | rfl | rfl | rfl | rfl | rfl | rfl <;>
    rfl

theorem strFieldLabels_ne_special (L : String) (hL : L ∈ strFieldLabels) :
    L ≠ "rank" ∧ L ≠ "logo" ∧ L ≠ "name" ∧ L ≠ "symbol" := by
  rcases strFieldLabels_cases L hL with rfl | rfl | rfl | rfl | rfl | rfl | rfl <;>
    exact ⟨by decide, by decide, by decide, by decide⟩

/-- C9, counterexample: a canonical string field CAN be the empty string.
With header labels [Price, 1h %, 7d %] the third data cell is the final
positional one, so its embedded image source — here the empty string — is
stored under `7d %`, and the extracted record has change_7d = "". -/
theorem change_7d_empty_string :
    (extractPageSync ["Price", "1h %", "7d %"] [c9Row]).map (fun rec => rec.change_7d) =
      [Val.str ""] := by
  decide

/-- C9 (amended): for every extracted row, each canonical string field
(price, change_1h, change_24h, change_7d, market_cap, volume_24h,
circulating_supply) is null or a non-empty string, PROVIDED its column
label is not the one paired with the final positional cell (whose image
source is stored unguarded and may be empty); this holds in both
variants. -/
theorem str_fields_nonempty_or_null (hdrs : List String) (r : Row) (L : String)
    (hL : L ∈ strFieldLabels) (hlast : hdrs.get? (r.cells.length - 1) ≠ some L) :
    (∀ rec, extractRowSync hdrs r = some rec → nonEmptyOrNull (strFieldOf rec L) = true) ∧
    (∀ rec, extractRowAsync hdrs r = Except.ok (some rec) →
      nonEmptyOrNull (strFieldOf rec L) = true) := by
  obtain ⟨hrk, hlo, hna, hsy⟩ := strFieldLabels_ne_special L hL
  constructor
  · intro rec hex
    unfold extractRowSync at hex
    by_cases hde : rowInfoSync hdrs r = []
    · rw [if_pos hde] at hex
      exact absurd hex (by simp)
    · rw [if_neg hde] at hex
      simp only [Option.some.injEq] at hex
      rw [← hex, strFieldOf_normalize _ L hL]
      unfold rowInfoSync
      apply rowInfoRest_nonEmpty hdrs r _ L hlo hna hsy hlast
      cases hrt : r.rankText with
      | none => simp [pyGet, dictGet, nonEmptyOrNull]
      | some t => simp [pyGet, dictGet, dictInsert, nonEmptyOrNull, Ne.symm hrk]
  · intro rec hex
    cases hrt : r.rankText with
    | none =>
      have hra : rowInfoAsync hdrs r = Except.ok (rowInfoRest hdrs r []) := by
        unfold rowInfoAsync
        rw [hrt]
      rw [extractRowAsync_of_ok hdrs r _ hra] at hex
      by_cases hde : rowInfoRest hdrs r [] = []
      · rw [if_pos hde] at hex
        exact absurd hex (by simp)
      · rw [if_neg hde] at hex
        simp only [Except.ok.injEq, Option.some.injEq] at hex
        rw [← hex, strFieldOf_normalize _ L hL]
        apply rowInfoRest_nonEmpty hdrs r _ L hlo hna hsy hlast
        simp [pyGet, dictGet, nonEmptyOrNull]
    | some t =>
      cases hpi : pyToInt t with
      | none =>
        have hra := rowInfoAsync_badRank hdrs r t hrt hpi
        unfold extractRowAsync at hex
        rw [hra] at hex
        exact absurd hex (by simp)
      | some i =>
        have hra := rowInfoAsync_goodRank hdrs r t i hrt hpi
        rw [extractRowAsync_of_ok hdrs r _ hra] at hex
        by_cases hde : rowInfoRest hdrs r (dictInsert [] "rank" (Val.int i)) = []
        · rw [if_pos hde] at hex
          exact absurd hex (by simp)
        · rw [if_neg hde] at hex
          simp only [Except.ok.injEq, Option.some.injEq] at hex
          rw [← hex, strFieldOf_normalize _ L hL]
          apply rowInfoRest_nonEmpty hdrs r _ L hlo hna hsy hlast
          simp [pyGet, dictGet, dictInsert, nonEmptyOrNull, Ne.symm hrk]

/-- A two-cell row: a non-empty price text and a last cell with image
source `u`. -/
def c9GoodRow : Row :=
  { rankText := none, logoSrc := none, nameText := none, symbolText := none,
    cells := [{ text := "$9", img := none }, { text := "", img := some (some "u") }] }

/-- C9, witness: with labels [Price, Last 7 Days], the Price field of the
extracted record is a non-empty string. -/
theorem str_fields_nonempty_witness :
    nonEmptyOrNull (strFieldOf (normalize_coin
      [("Price", Val.str "$9"), ("Last 7 Days", Val.str "u")]) "Price") = true :=
  (str_fields_nonempty_or_null ["Price", "Last 7 Days"] c9GoodRow "Price"
    (by decide) (by decide)).1
    (normalize_coin [("Price", Val.str "$9"), ("Last 7 Days", Val.str "u")]) rfl
